import Mathlib

/-!
Verification development for the sequence-alignment display logic of the
pathogenie repository (`src/pathogenie/tools.py`, `src/pathogenie/widgets.py`).

The Python functions `show_alignment`, `get_sequence_colors` and
`get_protein_colors` are shallowly embedded below.  Sequences are lists of
characters; Python slicing and `range` are modelled by `pySlice` and
`pyRange`; the dynamically typed local variable `diff` of `show_alignment`
(a bool that the loop body overwrites with a string) is modelled by the sum
type `DiffVal`.  Output lines are modelled structurally (`AlnLine`): the
`printf`-style column padding of the source is presentation only and is not
reproduced, but every datum appearing in a line (the label sequence, the
truncated record name, the sliced residue content) is.
-/

/-- A sequence record: identifier and residue string, as used by
`show_alignment` (Biopython `SeqRecord` restricted to the fields read). -/
structure SeqRecord where
  id : String
  seq : List Char
deriving DecidableEq, Repr

/-- Python slice `s[start:stop]` for non-negative indices: elements at
positions `start ≤ i < min stop s.length`. -/
def pySlice (s : List Char) (start stop : Nat) : List Char :=
  (s.take stop).drop start

/-- Python `range(0, stop, step)` for `step > 0`: the starts
`0, step, 2*step, ...` strictly below `stop`. -/
def pyRange (stop step : Nat) : List Nat :=
  List.range' 0 ((stop + step - 1) / step) step

/-- The chunk list built by `show_alignment` (tools.py lines 714-720):
`n = 60` is hardcoded; the `chunks` argument is used only as a flag.
`if chunks > 0: chunks = [(i,i+n) for i in range(0, l, n)] else: [(0,l)]`. -/
def mkChunks (chunksArg l : Nat) : List (Nat × Nat) :=
  if chunksArg > 0 then (pyRange l 60).map (fun i => (i, i + 60))
  else [(0, l)]

/-- The header labels of one chunk (tools.py line 723):
`lbls = np.arange(start+1, end+1, 10) - offset`. -/
def lbls (start stop : Nat) (offset : Int) : List Int :=
  (List.range ((stop - start + 9) / 10)).map
    (fun (k : Nat) => ((start : Int) + 1 + 10 * (k : Int)) - offset)

/-- The per-row difference encoding of `show_alignment` (tools.py lines
730-734): `for i,j in zip(ref,a): diff += (j if i != j else '-')`. -/
def diffStr (ref a : List Char) : List Char :=
  List.zipWith (fun i j => if i ≠ j then j else '-') ref a

/-- One output line of `show_alignment`, modelled structurally: a header
line carrying its column labels, or a sequence row carrying the truncated
record name and the sliced content. -/
inductive AlnLine where
  | head (labels : List Int)
  | row (name : String) (content : List Char)
deriving DecidableEq, Repr

/-- The dynamically typed Python local `diff`: a bool on entry, overwritten
by the encoded string inside the loop. -/
inductive DiffVal where
  | bool (b : Bool)
  | str (s : List Char)
deriving DecidableEq, Repr

/-- The Python test `diff == True`: true only for the boolean `True`;
a string never equals `True`. -/
def diffIsTrue : DiffVal → Bool
  | .bool b => b
  | .str _ => false

/-- Body of `for c in chunks` in `show_alignment` (tools.py lines 721-740),
threading the `diff` variable through the iterations. -/
def chunkLoop (ref : SeqRecord) (rest : List SeqRecord) (offset : Int) :
    List (Nat × Nat) → DiffVal → List AlnLine
  | [], _ => []
  | (start, stop) :: cs, d =>
    let hdr := AlnLine.head (lbls start stop offset)
    let refRow := AlnLine.row (ref.id.take 20) (pySlice ref.seq start stop)
    if diffIsTrue d then
      let rows := rest.map (fun a =>
        AlnLine.row (a.id.take 20) (pySlice (diffStr ref.seq a.seq) start stop))
      let d' := match rest.getLast? with
        | none => d
        | some a => DiffVal.str (diffStr ref.seq a.seq)
      hdr :: refRow :: rows ++ chunkLoop ref rest offset cs d'
    else
      let rows := rest.map (fun a =>
        AlnLine.row (a.id.take 20) (pySlice a.seq start stop))
      hdr :: refRow :: rows ++ chunkLoop ref rest offset cs d

/-- `show_alignment(aln, chunks, diff, offset)` (tools.py lines 704-742),
returning the emitted lines; `none` models the `IndexError` of `aln[0]`
on an empty alignment. -/
def show_alignment (aln : List SeqRecord) (chunksArg : Nat) (diff : Bool)
    (offset : Int) : Option (List AlnLine) :=
  match aln with
  | [] => none
  | ref :: rest =>
    some (chunkLoop ref rest offset (mkChunks chunksArg ref.seq.length)
      (DiffVal.bool diff))

/-- Expected lines of one chunk in the non-diff branch: header, reference
row, then each remaining record's literal slice. -/
def chunkLinesLit (ref : SeqRecord) (rest : List SeqRecord) (offset : Int)
    (c : Nat × Nat) : List AlnLine :=
  AlnLine.head (lbls c.1 c.2 offset) ::
    AlnLine.row (ref.id.take 20) (pySlice ref.seq c.1 c.2) ::
    rest.map (fun a => AlnLine.row (a.id.take 20) (pySlice a.seq c.1 c.2))

/-- Expected lines of one chunk in the diff branch: header, reference row,
then each remaining record's difference encoding, sliced to the chunk. -/
def chunkLinesDiff (ref : SeqRecord) (rest : List SeqRecord) (offset : Int)
    (c : Nat × Nat) : List AlnLine :=
  AlnLine.head (lbls c.1 c.2 offset) ::
    AlnLine.row (ref.id.take 20) (pySlice ref.seq c.1 c.2) ::
    rest.map (fun a =>
      AlnLine.row (a.id.take 20) (pySlice (diffStr ref.seq a.seq) c.1 c.2))

/-- The fixed nucleotide color map of `get_sequence_colors` (tools.py line
761): `clrs = {'A':'red','T':'green','G':'orange','C':'blue','-':'white'}`. -/
def clrs : List (Char × String) :=
  [('A', "red"), ('T', "green"), ('G', "orange"), ('C', "blue"), ('-', "white")]

/-- `Bio.PDB.Polypeptide.aa1`: the twenty amino-acid one-letter codes. -/
def aa1 : List Char := "ACDEFGHIKLMNPQRSTVWY".toList

/-- `aa1` with the gap and unknown-residue placeholders appended
(tools.py lines 747-750): `aa1.append('-'); aa1.append('X')`. -/
def aaKeys : List Char := aa1 ++ ['-', 'X']

/-- The amino-acid color dictionary `pcolors` built identically by
`get_sequence_colors` and `get_protein_colors` (tools.py lines 752-758,
770-780): the palette is sampled to 20 hex strings by matplotlib
(`cm.get_cmap(palette, 256)` evaluated at `np.linspace(0, 1, 20)` and
converted by `mpl.colors.to_hex`), `'white'` is appended twice, and the
dict zips `aa1` plus placeholders against it.  The matplotlib sampling is
external library code, passed in as the deterministic function `palFn`
from palette name to the 20 sampled hex strings. -/
def pcolorsOf (palFn : String → List String) (palette : String) :
    List (Char × String) :=
  aaKeys.zip (palFn palette ++ ["white", "white"])

/-- `get_protein_colors(palette)` (tools.py lines 767-781): returns the
`pcolors` dictionary. -/
def get_protein_colors (palFn : String → List String) (palette : String) :
    List (Char × String) :=
  pcolorsOf palFn palette

/-- The Python list comprehension `[m[i] for i in text]` over a dict `m`:
succeeds with the list of values when every key is present, and models the
`KeyError` raised at the first missing key by `none`. -/
def lookupAll (m : List (Char × String)) : List Char → Option (List String)
  | [] => some []
  | c :: cs =>
    match m.lookup c with
    | none => none
    | some v => (lookupAll m cs).map (fun tl => v :: tl)

/-- The flattening `text = [i for s in list(seqs) for i in s]` performed by
`get_sequence_colors` (tools.py line 760). -/
def flatChars (seqs : List String) : List Char :=
  (seqs.map (fun s => s.toList)).flatten

/-- `get_sequence_colors(seqs, palette)` (tools.py lines 744-765): flattens
the sequences to a character list, tries the nucleotide map `clrs` on the
whole list inside `try:`, and on any `KeyError` falls back to the whole
list over `pcolors` (a character absent from both maps raises, modelled by
`none`). -/
def get_sequence_colors (palFn : String → List String) (seqs : List String)
    (palette : String) : Option (List String) :=
  let pcolors := pcolorsOf palFn palette
  let text := flatChars seqs
  match lookupAll clrs text with
  | some colors => some colors
  | none => lookupAll pcolors text

/-- The twenty hex strings matplotlib yields for palette `"tab20"` under
the sampling above; a concrete instance of `palFn` for closed evaluations.
`mpl.colors.to_hex` output always has the form `"#rrggbb"`. -/
def tab20hex : List String :=
  ["#1f77b4", "#aec7e8", "#ff7f0e", "#ffbb78", "#2ca02c", "#98df8a",
   "#d62728", "#ff9896", "#9467bd", "#c5b0d5", "#8c564b", "#c49c94",
   "#e377c2", "#f7b6d2", "#7f7f7f", "#c7c7c7", "#bcbd22", "#dbdb8d",
   "#17becf", "#9edae5"]

/-- Concrete palette-sampling function returning the `tab20` sample. -/
def palFnTab20 : String → List String := fun _ => tab20hex

/-- Modelled from the spec: the error signalled by the external alignment
tool.  `clustal_alignment` (tools.py lines 334-348) delegates to
Biopython's `ClustalwCommandline`, whose binary discovery and exit-status
interpretation live outside this repository; spec section 4.4 models the
aligner as a black box `align(records) -> Alignment` that fails with
`ToolInvocationError` when the binary is missing or exits non-zero. -/
inductive ToolInvocationError where
  | binaryMissing
  | nonZeroExit (code : Nat)
deriving DecidableEq, Repr

/-- The alignment state of `SequencesViewer` (widgets.py line 506):
`self.aln`, `None` until an alignment is committed. -/
structure ViewerState where
  aln : Option (List SeqRecord)
deriving DecidableEq, Repr

/-- `SequencesViewer.align` (widgets.py lines 649-656): when `self.aln` is
`None`, write the records and run the external aligner, assigning the
result to `self.aln`; a raised `ToolInvocationError` propagates and the
assignment never executes, so the state is returned unchanged alongside
the error. -/
def alignOp
    (runTool : List SeqRecord → Except ToolInvocationError (List SeqRecord))
    (recs : List SeqRecord) (st : ViewerState) :
    Option ToolInvocationError × ViewerState :=
  match st.aln with
  | some _ => (none, st)
  | none =>
    match runTool recs with
    | .ok a => (none, { st with aln := some a })
    | .error e => (some e, st)


/-- Concrete reference record for the `C5` witness: 70 residues. -/
def wRef : SeqRecord := ⟨"ref", List.replicate 70 'A'⟩

/-- Concrete non-reference record for the `C5` witness: 70 residues. -/
def wAlt : SeqRecord := ⟨"alt", List.replicate 70 'C'⟩

/-! ## Helper lemmas -/

lemma mkChunks_pos_eq (c l : Nat) (hc : 0 < c) :
    mkChunks c l =
      (List.range' 0 ((l + 59) / 60) 60).map (fun i => (i, i + 60)) := by
  have h59 : l + 60 - 1 = l + 59 := by omega
  simp [mkChunks, pyRange, hc, h59]

lemma mkChunks_pos_length (c l : Nat) (hc : 0 < c) :
    (mkChunks c l).length = (l + 59) / 60 := by
  simp [mkChunks_pos_eq c l hc]

lemma mkChunks_pos_getD (c l i : Nat) (hc : 0 < c)
    (hi : i < (mkChunks c l).length) :
    (mkChunks c l).getD i (0, 0) = (60 * i, 60 * i + 60) := by
  rw [mkChunks_pos_eq c l hc] at hi ⊢
  rw [List.getD_eq_getElem?_getD, List.getElem?_eq_getElem hi,
    List.getElem_map]
  simp [List.getElem_range']

/-! ## Claim theorems -/

/-- C1, counterexample: with chunk width 60 and alignment length 70 the
generated chunk list is `[(0,60),(60,120)]`, whose final interval has end
120 > 70 — contradicting "the final chunk ... its end does not exceed L". -/
theorem C1_counterexample :
    mkChunks 60 70 = [(0, 60), (60, 120)] ∧
    ((mkChunks 60 70).getLastD (0, 0)).2 = 120 ∧ ¬ ((120 : Nat) ≤ 70) := by
  decide

/-- C1, amended: for every chunk flag `c > 0` and alignment length `L`, the
chunk list has `⌈L/60⌉` entries, entry `i` is `(60*i, 60*i + 60)` (so the
chunks are in increasing order and abut), every column `x < L` lies in
exactly one chunk, and the rendered slice of each chunk clamps to the
sequence length (so displayed columns cover `[0, L)` with no overlap and
no gap) — but the stored end of the final chunk is `60*⌈L/60⌉`, which may
exceed `L`. -/
theorem C1_chunk_coverage (c L : Nat) (hc : 0 < c) :
    (mkChunks c L).length = (L + 59) / 60 ∧
    (∀ i, i < (mkChunks c L).length →
      (mkChunks c L).getD i (0, 0) = (60 * i, 60 * i + 60)) ∧
    (∀ x, x < L → ∃! i, i < (mkChunks c L).length ∧
      ((mkChunks c L).getD i (0, 0)).1 ≤ x ∧
      x < ((mkChunks c L).getD i (0, 0)).2) ∧
    (∀ (s : List Char), s.length = L → ∀ i, i < (mkChunks c L).length →
      (pySlice s ((mkChunks c L).getD i (0, 0)).1
        ((mkChunks c L).getD i (0, 0)).2).length
        = min (60 * i + 60) L - 60 * i) := by
  refine ⟨mkChunks_pos_length c L hc,
    fun i hi => mkChunks_pos_getD c L i hc hi, ?_, ?_⟩
  · intro x hx
    have hxlen : x / 60 < (mkChunks c L).length := by
      rw [mkChunks_pos_length c L hc]; omega
    refine ⟨x / 60, ⟨hxlen, ?_, ?_⟩, ?_⟩
    · rw [mkChunks_pos_getD c L _ hc hxlen]; omega
    · rw [mkChunks_pos_getD c L _ hc hxlen]; omega
    · rintro j ⟨hj, hj1, hj2⟩
      rw [mkChunks_pos_getD c L j hc hj] at hj1 hj2
      omega
  · intro s hs i hi
    rw [mkChunks_pos_getD c L i hc hi]
    simp [pySlice, hs]

/-- Witness for `C1_chunk_coverage` at the counterexample input. -/
theorem C1_chunk_coverage_witness :
    (mkChunks 60 70).length = (70 + 59) / 60 ∧
    (mkChunks 60 70).getD 1 (0, 0) = (60 * 1, 60 * 1 + 60) :=
  ⟨(C1_chunk_coverage 60 70 (by decide)).1,
   (C1_chunk_coverage 60 70 (by decide)).2.1 1 (by decide)⟩

/-- C3: evaluation at the failing input.  The docstring of `show_alignment`
says the `chunks` argument is "length of chunks to break lines over, 0
means full length", but the body hardcodes `n = 60` and uses the argument
only as a flag: with `chunks = 30` and length 120 the produced chunks have
width 60, not 30.  The `chunks = 0` and `chunks = 60` cases agree with the
claim. -/
theorem C3_code_eval :
    mkChunks 30 120 = [(0, 60), (60, 120)] ∧
    mkChunks 0 120 = [(0, 120)] ∧
    mkChunks 60 120 = [(0, 60), (60, 120)] := by
  decide

/-- C4: on reference and target of unequal length the difference encoder
does not fail; paired iteration (`zip`) silently truncates, so the output
length is the length of the shorter input. -/
theorem C4_unequal_truncation (ref a : List Char)
    (h : ref.length ≠ a.length) :
    (diffStr ref a).length = min ref.length a.length := by
  simp [diffStr]

/-- Witness for `C4_unequal_truncation`: reference of length 4 against
target of length 2. -/
theorem C4_witness :
    (diffStr ("ACGT".toList) ("AC".toList)).length =
      min (("ACGT".toList).length) (("AC".toList).length) :=
  C4_unequal_truncation ("ACGT".toList) ("AC".toList) (by decide)

/-- C9: difference-encoding a sequence against itself yields the
all-placeholder string of the same length. -/
theorem C9_self_encoding (s : List Char) :
    diffStr s s = List.replicate s.length '-' := by
  induction s with
  | nil => rfl
  | cons c cs ih =>
    simp only [diffStr, List.zipWith_cons_cons, List.length_cons,
      List.replicate_succ] at ih ⊢
    simp [ih]

/-- C2: for reference and target of equal length `L` the difference encoder
returns a string of length `L` whose position `i` is `'-'` exactly when
`target[i] = reference[i]` and `target[i]` verbatim otherwise. -/
theorem C2_diff_encoding (ref a : List Char) (h : ref.length = a.length) :
    (diffStr ref a).length = ref.length ∧
    ∀ i, i < ref.length →
      (diffStr ref a).getD i ' ' =
        if a.getD i ' ' = ref.getD i ' ' then '-' else a.getD i ' ' := by
  constructor
  · simp [diffStr, h]
  · intro i hi
    have hia : i < a.length := h ▸ hi
    have hid : i < (diffStr ref a).length := by simp [diffStr, h]; omega
    rw [List.getD_eq_getElem?_getD, List.getElem?_eq_getElem hid,
      List.getD_eq_getElem?_getD, List.getElem?_eq_getElem hia,
      List.getD_eq_getElem?_getD, List.getElem?_eq_getElem hi]
    simp only [diffStr, List.getElem_zipWith, Option.getD_some]
    by_cases hcase : a[i] = ref[i]
    · simp [hcase]
    · have hne : ref[i] ≠ a[i] := fun hh => hcase hh.symm
      simp [hcase, hne]

/-- Witness for `C2_diff_encoding`: the spec scenario `"ACGT"` vs
`"ACGA"`, whose encoding is `"---A"`. -/
theorem C2_witness :
    (diffStr ("ACGT".toList) ("ACGA".toList)).length =
      ("ACGT".toList).length ∧
    diffStr ("ACGT".toList) ("ACGA".toList) = "---A".toList :=
  ⟨(C2_diff_encoding ("ACGT".toList) ("ACGA".toList) (by decide)).1,
   by decide⟩

/-- C8: for every chunk `[start, stop)` the header-label list has
`⌈(stop - start)/10⌉` entries, consecutive entries differ by exactly 10,
and the first entry is `start + 1` shifted by the signed `offset`. -/
theorem C8_header_labels (start stop : Nat) (offset : Int)
    (h : start ≤ stop) :
    (lbls start stop offset).length = (stop - start + 9) / 10 ∧
    (∀ k, k + 1 < (lbls start stop offset).length →
      (lbls start stop offset).getD (k + 1) 0 =
        (lbls start stop offset).getD k 0 + 10) ∧
    (start < stop →
      (lbls start stop offset).getD 0 0 = (start : Int) + 1 - offset) := by
  refine ⟨by simp only [lbls, List.length_map, List.length_range], ?_, ?_⟩
  · intro k hk
    simp only [lbls, List.length_map, List.length_range] at hk
    have hk' : k < (stop - start + 9) / 10 := by omega
    have hlen : ∀ m, m < (stop - start + 9) / 10 →
        m < ((List.range ((stop - start + 9) / 10)).map
          (fun (j : Nat) => ((start : Int) + 1 + 10 * (j : Int)) - offset)).length := by
      intro m hm; simpa using hm
    rw [lbls, List.getD_eq_getElem?_getD,
      List.getElem?_eq_getElem (hlen (k + 1) hk),
      List.getD_eq_getElem?_getD, List.getElem?_eq_getElem (hlen k hk')]
    simp only [List.getElem_map, List.getElem_range, Option.getD_some]
    push_cast
    ring
  · intro hlt
    have h0 : 0 < (stop - start + 9) / 10 := by omega
    have h0' : 0 < ((List.range ((stop - start + 9) / 10)).map
        (fun (j : Nat) => ((start : Int) + 1 + 10 * (j : Int)) - offset)).length := by
      simpa using h0
    rw [lbls, List.getD_eq_getElem?_getD, List.getElem?_eq_getElem h0']
    simp

/-- Witness for `C8_header_labels`: the second chunk `[60, 120)` with
offset 3. -/
theorem C8_witness :
    (lbls 60 120 3).length = (120 - 60 + 9) / 10 ∧
    (∀ k, k + 1 < (lbls 60 120 3).length →
      (lbls 60 120 3).getD (k + 1) 0 = (lbls 60 120 3).getD k 0 + 10) ∧
    (60 < 120 → (lbls 60 120 3).getD 0 0 = (60 : Int) + 1 - 3) :=
  C8_header_labels 60 120 3 (by decide)

lemma chunkLoop_lit (ref : SeqRecord) (rest : List SeqRecord) (offset : Int)
    (cs : List (Nat × Nat)) (d : DiffVal) (hd : diffIsTrue d = false) :
    chunkLoop ref rest offset cs d =
      (cs.map (chunkLinesLit ref rest offset)).flatten := by
  induction cs with
  | nil => rfl
  | cons c cs ih =>
    obtain ⟨start, stop⟩ := c
    simp only [chunkLoop, hd, Bool.false_eq_true, if_false, List.map_cons,
      List.flatten_cons, chunkLinesLit, ih]

lemma mkChunks_head_tail (c L : Nat) (hc : 0 < c) (hL : 60 < L) :
    mkChunks c L = (0, 60) ::
      ((List.range' 60 ((L + 59) / 60 - 1) 60).map (fun i => (i, i + 60))) := by
  have hm : (L + 59) / 60 = ((L + 59) / 60 - 1) + 1 := by omega
  rw [mkChunks_pos_eq c L hc, hm, List.range'_succ]
  simp

/-- C5: with the diff flag set, a positive chunk flag, an alignment longer
than one chunk (so at least two chunks) and at least one non-reference
record, only the first chunk's rows are difference-encoded: every chunk
after the first renders the literal sequence slices, because the loop body
overwrites the boolean `diff` with the encoded string, after which
`diff == True` is false. -/
theorem C5_first_chunk_only_diffed (ref : SeqRecord) (rest : List SeqRecord)
    (c : Nat) (offset : Int) (hrest : rest ≠ []) (hc : 0 < c)
    (hL : 60 < ref.seq.length) :
    1 < (mkChunks c ref.seq.length).length ∧
    show_alignment (ref :: rest) c true offset =
      some (chunkLinesDiff ref rest offset (0, 60) ++
        ((mkChunks c ref.seq.length).tail.map
          (chunkLinesLit ref rest offset)).flatten) := by
  constructor
  · rw [mkChunks_pos_length _ _ hc]; omega
  · rcases hgl : rest.getLast? with _ | a
    · exact absurd (List.getLast?_eq_none_iff.mp hgl) hrest
    · rw [show_alignment, mkChunks_head_tail c ref.seq.length hc hL]
      simp only [chunkLoop, diffIsTrue, if_true, hgl]
      rw [chunkLoop_lit ref rest offset _ (DiffVal.str (diffStr ref.seq a.seq))
        rfl]
      simp [chunkLinesDiff]

/-- Witness for `C5_first_chunk_only_diffed`: two records of length 70,
chunk flag 1, offset 0. -/
theorem C5_witness :
    1 < (mkChunks 1 wRef.seq.length).length ∧
    show_alignment (wRef :: [wAlt]) 1 true 0 =
      some (chunkLinesDiff wRef [wAlt] 0 (0, 60) ++
        ((mkChunks 1 wRef.seq.length).tail.map
          (chunkLinesLit wRef [wAlt] 0)).flatten) :=
  C5_first_chunk_only_diffed wRef [wAlt] 1 0 (by decide) (by decide)
    (by decide)

lemma lookupAll_isSome_eq (m : List (Char × String)) (text : List Char)
    (h : ∀ ch ∈ text, (m.lookup ch).isSome) :
    lookupAll m text =
      some (text.map (fun ch => (m.lookup ch).getD "")) := by
  induction text with
  | nil => rfl
  | cons c cs ih =>
    obtain ⟨v, hv⟩ := Option.isSome_iff_exists.mp (h c (List.mem_cons_self c cs))
    have ihs := ih (fun ch hch => h ch (List.mem_cons_of_mem c hch))
    simp [lookupAll, hv, ihs]

lemma lookupAll_none (m : List (Char × String)) (text : List Char)
    (ch : Char) (hch : ch ∈ text) (h : m.lookup ch = none) :
    lookupAll m text = none := by
  induction text with
  | nil => cases hch
  | cons c cs ih =>
    rcases List.mem_cons.mp hch with rfl | hmem
    · simp [lookupAll, h]
    · cases hl : m.lookup c with
      | none => simp [lookupAll, hl]
      | some v => simp [lookupAll, hl, ih hmem]

lemma lookup_zip_isSome (ks : List Char) (vs : List String) (ch : Char)
    (hlen : ks.length ≤ vs.length) (hmem : ch ∈ ks) :
    ((ks.zip vs).lookup ch).isSome := by
  induction ks generalizing vs with
  | nil => cases hmem
  | cons k ks ih =>
    cases vs with
    | nil => simp at hlen
    | cons v vs =>
      by_cases hek : ch = k
      · subst hek
        simp [List.zip_cons_cons, List.lookup_cons]
      · rcases List.mem_cons.mp hmem with rfl | hm
        · exact absurd rfl hek
        · have hlen' : ks.length ≤ vs.length := by
            simp at hlen; omega
          simp only [List.zip_cons_cons, List.lookup_cons,
            beq_eq_false_iff_ne.mpr hek]
          exact ih vs hlen' hm

lemma lookup_zip_none (ks : List Char) (vs : List String) (ch : Char)
    (hmem : ch ∉ ks) : (ks.zip vs).lookup ch = none := by
  induction ks generalizing vs with
  | nil => simp [List.lookup]
  | cons k ks ih =>
    cases vs with
    | nil => simp [List.lookup]
    | cons v vs =>
      have hk : ch ≠ k := fun h => hmem (h ▸ List.mem_cons_self k ks)
      have hm : ch ∉ ks := fun h => hmem (List.mem_cons_of_mem k h)
      simp only [List.zip_cons_cons, List.lookup_cons,
        beq_eq_false_iff_ne.mpr hk]
      exact ih vs hm

/-- C6, counterexample: resolution is not per character.  Alone, `'A'`
resolves through the nucleotide map to `"red"`; in the mixed input
`"AR"` the amino-acid character `'R'` makes the whole nucleotide lookup
fail, so `'A'` resolves through the amino-acid palette to `"#1f77b4"`,
not `"red"`. -/
theorem C6_counterexample :
    get_sequence_colors palFnTab20 (["A"]) ("tab20") = some ["red"] ∧
    get_sequence_colors palFnTab20 (["AR"]) ("tab20") =
      some ["#1f77b4", "#7f7f7f"] ∧
    ("#1f77b4" : String) ≠ "red" := by
  decide

/-- C6, amended: resolution is per whole input, not per character.  If
every character of the flattened input is a key of the fixed 5-entry
nucleotide map, each character resolves through that map; otherwise every
character — nucleotide characters included — resolves through the
generated amino-acid palette map (20 symbols plus gap and unknown
placeholders); and in that fallback a character outside the amino-acid
map makes the whole call fail (`KeyError`, modelled as `none`). -/
theorem C6_resolution (palFn : String → List String) (palette : String)
    (seqs : List String) (hpal : 20 ≤ (palFn palette).length) :
    ((flatChars seqs).all (fun ch => (clrs.lookup ch).isSome) = true →
      get_sequence_colors palFn seqs palette =
        some ((flatChars seqs).map (fun ch => (clrs.lookup ch).getD ""))) ∧
    ((flatChars seqs).all (fun ch => (clrs.lookup ch).isSome) = false →
      (flatChars seqs).all (fun ch => decide (ch ∈ aaKeys)) = true →
      get_sequence_colors palFn seqs palette =
        some ((flatChars seqs).map
          (fun ch => ((pcolorsOf palFn palette).lookup ch).getD ""))) ∧
    ((flatChars seqs).all (fun ch => (clrs.lookup ch).isSome) = false →
      ∀ ch ∈ flatChars seqs, ch ∉ aaKeys →
      get_sequence_colors palFn seqs palette = none) := by
  have hcov : aaKeys.length ≤ (palFn palette ++ ["white", "white"]).length := by
    simp [aaKeys, aa1]
    omega
  refine ⟨?_, ?_, ?_⟩
  · intro h
    have hall : ∀ ch ∈ flatChars seqs, (clrs.lookup ch).isSome := by
      intro ch hch
      exact List.all_eq_true.mp h ch hch
    simp only [get_sequence_colors, lookupAll_isSome_eq clrs _ hall]
  · intro h haa
    obtain ⟨ch0, hch0, hnone⟩ := List.all_eq_false.mp h
    have hnone' : clrs.lookup ch0 = none :=
      Option.not_isSome_iff_eq_none.mp (by simpa using hnone)
    have hfb : ∀ ch ∈ flatChars seqs,
        ((pcolorsOf palFn palette).lookup ch).isSome := by
      intro ch hch
      have hmem : ch ∈ aaKeys := by
        have := List.all_eq_true.mp haa ch hch
        simpa using this
      exact lookup_zip_isSome aaKeys _ ch hcov hmem
    simp only [get_sequence_colors,
      lookupAll_none clrs _ ch0 hch0 hnone',
      lookupAll_isSome_eq (pcolorsOf palFn palette) _ hfb]
  · intro h ch hch hout
    obtain ⟨ch0, hch0, hnone⟩ := List.all_eq_false.mp h
    have hnone' : clrs.lookup ch0 = none :=
      Option.not_isSome_iff_eq_none.mp (by simpa using hnone)
    have hpc : (pcolorsOf palFn palette).lookup ch = none :=
      lookup_zip_none aaKeys _ ch hout
    simp only [get_sequence_colors,
      lookupAll_none clrs _ ch0 hch0 hnone',
      lookupAll_none (pcolorsOf palFn palette) _ ch hch hpc]

/-- Witness for `C6_resolution`: the mixed input `"AR"` resolves entirely
through the amino-acid palette map. -/
theorem C6_resolution_witness :
    get_sequence_colors palFnTab20 (["AR"]) ("tab20") =
      some ((flatChars ["AR"]).map
        (fun ch => ((pcolorsOf palFnTab20 ("tab20")).lookup ch).getD "")) :=
  (C6_resolution palFnTab20 ("tab20") (["AR"]) (by decide)).2.1
    (by decide) (by decide)

/-- C7: when the external aligner fails with a `ToolInvocationError`
(binary absent or non-zero exit), `SequencesViewer.align` surfaces the
error and the alignment state remains unset (`None`): no partially
populated alignment is committed. -/
theorem C7_tool_error_keeps_state
    (runTool : List SeqRecord → Except ToolInvocationError (List SeqRecord))
    (recs : List SeqRecord) (st : ViewerState) (e : ToolInvocationError)
    (h1 : st.aln = none) (h2 : runTool recs = Except.error e) :
    alignOp runTool recs st = (some e, st) ∧
    (alignOp runTool recs st).2.aln = none := by
  refine ⟨by simp [alignOp, h1, h2], by simp [alignOp, h1, h2]⟩

/-- Witness for `C7_tool_error_keeps_state`: an aligner whose binary is
absent, applied in the initial (unset) state. -/
theorem C7_witness :
    alignOp (fun _ => Except.error ToolInvocationError.binaryMissing) []
        ⟨none⟩ = (some ToolInvocationError.binaryMissing, ⟨none⟩) ∧
    (alignOp (fun _ => Except.error ToolInvocationError.binaryMissing) []
        ⟨none⟩).2.aln = none :=
  C7_tool_error_keeps_state _ _ _ _ rfl rfl

/-- C10: color assignment is deterministic.  Both colorizers are pure
functions of the palette-sampling function, the palette name and the
input characters: any two calls with the same arguments return the same
tokens, and the protein color map resolves every symbol identically
across the two calls. -/
theorem C10_determinism (palFn : String → List String) (palette : String)
    (seqs : List String) (r1 r2 : Option (List String))
    (m1 m2 : List (Char × String))
    (h1 : get_sequence_colors palFn seqs palette = r1)
    (h2 : get_sequence_colors palFn seqs palette = r2)
    (g1 : get_protein_colors palFn palette = m1)
    (g2 : get_protein_colors palFn palette = m2) :
    r1 = r2 ∧ m1 = m2 ∧ ∀ ch, m1.lookup ch = m2.lookup ch := by
  subst h1 h2 g1 g2
  exact ⟨rfl, rfl, fun ch => rfl⟩

/-- Witness for `C10_determinism`: two renders of the nucleotide input
`"A"` with the `tab20` palette. -/
theorem C10_witness :
    (some ["red"] : Option (List String)) = some ["red"] ∧
    get_protein_colors palFnTab20 ("tab20") =
      get_protein_colors palFnTab20 ("tab20") ∧
    ∀ ch, (get_protein_colors palFnTab20 ("tab20")).lookup ch =
      (get_protein_colors palFnTab20 ("tab20")).lookup ch :=
  C10_determinism palFnTab20 ("tab20") (["A"]) (some ["red"]) (some ["red"])
    (get_protein_colors palFnTab20 ("tab20"))
    (get_protein_colors palFnTab20 ("tab20"))
    (by decide) (by decide) rfl rfl
